import Mathlib

/-!
Verification of the Keccak-256 sponge trace generator and sponge AIR of the
hyperplonk benchmark core (src/hyperplonk/src/keccak/trace.rs,
src/hyperplonk/src/keccak/sponge_air.rs, src/utils/src/lib.rs).

Bytes and 64-bit lanes are modelled as `Nat` (all operations used by the source
stay below 2^64 on byte/lane inputs, and the bit-extraction functions only read
the low 64 bits of a lane, exactly as the `u64` code does).  Field-valued trace
cells are modelled over an arbitrary type `F` with `0` and `1`, the only field
constants the trace generator ever writes.
-/

/-! ### Constants (trace.rs / sponge_air.rs / p3_keccak_air) -/

/-- `const RATE_BYTES: usize = 136` (trace.rs). -/
def RATE_BYTES : Nat := 136

/-- `pub const STATE_BITS: usize = 1600` (sponge_air.rs). -/
def STATE_BITS : Nat := 1600

/-- `pub const RATE_BITS: usize = 1088` (sponge_air.rs). -/
def RATE_BITS : Nat := 1088

/-- `const DIGEST_BITS: usize = 256`, `pub const DIGEST_LIMBS = DIGEST_BITS / 16 = 16`
(sponge_air.rs). -/
def DIGEST_LIMBS : Nat := 16

/-- `NUM_ROUNDS = 24` of the external `p3_keccak_air` crate: one trace row per
Keccak-f round, 24 rounds per permutation. -/
def NUM_ROUNDS : Nat := 24

/-! ### Column layout (sponge_air.rs)

The extra columns are appended after the `NUM_KECCAK_COLS` permutation columns
of `p3_keccak_air`; the claims do not depend on the numeric value of
`NUM_KECCAK_COLS`, so it is a parameter `numKeccakCols` throughout. -/

/-- `pub const HASH_END_IDX: usize = NUM_KECCAK_COLS`. -/
def HASH_END_IDX (numKeccakCols : Nat) : Nat := numKeccakCols

/-- `pub const SEEN_END_IDX: usize = HASH_END_IDX + 1`. -/
def SEEN_END_IDX (numKeccakCols : Nat) : Nat := HASH_END_IDX numKeccakCols + 1

/-- `pub const ACTIVE_IDX: usize = SEEN_END_IDX + 1`. -/
def ACTIVE_IDX (numKeccakCols : Nat) : Nat := SEEN_END_IDX numKeccakCols + 1

/-- `pub const BLOCK_BITS_START: usize = ACTIVE_IDX + 1`. -/
def BLOCK_BITS_START (numKeccakCols : Nat) : Nat := ACTIVE_IDX numKeccakCols + 1

/-- `pub const OUT_BITS_START: usize = BLOCK_BITS_START + RATE_BITS`. -/
def OUT_BITS_START (numKeccakCols : Nat) : Nat := BLOCK_BITS_START numKeccakCols + RATE_BITS

/-! ### Padding (trace.rs, `keccak_pad10star1`) -/

/-- The `while (msg.len() % RATE_BYTES) != (RATE_BYTES - 1) { msg.push(0x00); }`
loop of `keccak_pad10star1`.  Each iteration moves `len % RATE_BYTES` one step
closer to `RATE_BYTES - 1`, so the loop runs at most `RATE_BYTES - 1` times;
a fuel of `RATE_BYTES` therefore never runs out before the guard fails
(`padWhile_eq` below derives the loop's exact result from this). -/
def padWhile : Nat → List Nat → List Nat
  | 0, msg => msg
  | fuel + 1, msg =>
    if msg.length % RATE_BYTES ≠ RATE_BYTES - 1 then padWhile fuel (msg ++ [0x00]) else msg

/-- `fn keccak_pad10star1(mut msg: Vec<u8>) -> Vec<u8>`: push `0x01`, pad with
zero bytes while `len % RATE_BYTES ≠ RATE_BYTES - 1`, push `0x80`. -/
def keccak_pad10star1 (msg : List Nat) : List Nat :=
  padWhile RATE_BYTES (msg ++ [0x01]) ++ [0x80]

/-! ### Bit / byte conversions (trace.rs) -/

/-- `fn bytes_to_rate_block_bits(block: &[u8; RATE_BYTES]) -> [u8; RATE_BITS]`:
bit `i*8 + b` of the result is `(block[i] >> b) & 1` (little-endian bit order
inside each byte).  Addressed here by the flat bit index `j = i*8 + b`, i.e.
byte `j / 8`, bit `j % 8`. -/
def bytes_to_rate_block_bits (block : List Nat) : List Nat :=
  (List.range RATE_BITS).map (fun j => block.getD (j / 8) 0 / 2 ^ (j % 8) % 2)

/-- `fn state_to_bits_le(state: &[u64; 25]) -> [u8; STATE_BITS]`:
bit `lane*64 + z` of the result is `(state[lane] >> z) & 1`.  Addressed here by
the flat bit index `j = lane*64 + z`, i.e. lane `j / 64`, bit `j % 64`. -/
def state_to_bits_le (state : List Nat) : List Nat :=
  (List.range STATE_BITS).map (fun j => state.getD (j / 64) 0 / 2 ^ (j % 64) % 2)

/-- `fn digest_to_u16_limbs_le(digest: &[u8; 32]) -> [u16; DIGEST_LIMBS]`:
limb `i` is `u16::from_le_bytes([digest[2*i], digest[2*i+1]])`
`= digest[2*i] + 256 * digest[2*i+1]`. -/
def digest_to_u16_limbs_le (digest : List Nat) : List Nat :=
  (List.range DIGEST_LIMBS).map (fun i => digest.getD (2 * i) 0 + 256 * digest.getD (2 * i + 1) 0)

/-- `u64::from_le_bytes(chunk)` for an 8-byte little-endian chunk. -/
def u64_from_le_bytes (chunk : List Nat) : Nat :=
  ((List.range 8).map (fun i => chunk.getD i 0 * 2 ^ (8 * i))).sum

/-- `u64::to_le_bytes(v)`: the 8 little-endian bytes of a 64-bit lane. -/
def u64_to_le_bytes (v : Nat) : List Nat :=
  (List.range 8).map (fun i => v / 2 ^ (8 * i) % 256)

/-! ### Sponge simulation (trace.rs, absorption loop of
`generate_trace_and_public_digest_limbs`) -/

/-- One absorption step: `for lane in 0..(RATE_BYTES / 8) { state[lane] ^= w }`
where `w = u64::from_le_bytes(block[lane*8..(lane+1)*8])`; the 25-lane state is
kept as a list indexed by lane. -/
def absorb_block (state block : List Nat) : List Nat :=
  (List.range 25).map (fun lane =>
    if lane < RATE_BYTES / 8 then
      Nat.xor (state.getD lane 0) (u64_from_le_bytes ((block.drop (lane * 8)).take 8))
    else state.getD lane 0)

/-- The per-block loop of the sponge simulation: for every block, absorb it into
the running state (recording the pre-permutation state, `perm_inputs` in the
source) and permute (recording the post-permutation state, `perm_outputs`).
Returns `(perm_inputs, perm_outputs)`.  `keccakF` models the external
`p3_keccak::KeccakF` permutation. -/
def sponge_steps (keccakF : List Nat → List Nat) (state : List Nat) :
    List (List Nat) → List (List Nat) × List (List Nat)
  | [] => ([], [])
  | block :: rest =>
    (absorb_block state block :: (sponge_steps keccakF (keccakF (absorb_block state block)) rest).1,
     keccakF (absorb_block state block) :: (sponge_steps keccakF (keccakF (absorb_block state block)) rest).2)

/-- The 136-byte chunks `padded[b*RATE_BYTES..(b+1)*RATE_BYTES]` of the padded
message. -/
def blocks_of (padded : List Nat) : List (List Nat) :=
  (List.range (padded.length / RATE_BYTES)).map
    (fun b => (padded.drop (b * RATE_BYTES)).take RATE_BYTES)

/-- `num_blocks = padded.len() / RATE_BYTES` as a function of the message. -/
def num_blocks_of (msg : List Nat) : Nat :=
  (keccak_pad10star1 msg).length / RATE_BYTES

/-- `hash_end_row = (perm_outputs.len() * NUM_ROUNDS) - 1` as a function of the
message (`perm_outputs.len() = num_blocks`). -/
def hash_end_row_of (msg : List Nat) : Nat :=
  num_blocks_of msg * NUM_ROUNDS - 1

/-- `block_bits`: the recorded rate-bit decompositions of the absorbed blocks. -/
def block_bits_of (msg : List Nat) : List (List Nat) :=
  (blocks_of (keccak_pad10star1 msg)).map bytes_to_rate_block_bits

/-- `perm_outputs`: the recorded permutation outputs of all absorbed blocks. -/
def perm_outputs_of (keccakF : List Nat → List Nat) (msg : List Nat) : List (List Nat) :=
  (sponge_steps keccakF (List.replicate 25 0) (blocks_of (keccak_pad10star1 msg))).2

/-- `computed_digest`: the first 32 little-endian bytes (4 lanes) of the final
permutation output, `perm_outputs.last()`. -/
def sponge_digest (finalState : List Nat) : List Nat :=
  List.flatten ((List.range 4).map (fun i => u64_to_le_bytes (finalState.getD i 0)))

/-! ### Message generation (utils/src/lib.rs, `generate_keccak_input`) -/

/-- `pub fn generate_keccak_input(input_size) -> (Vec<u8>, Vec<u8>)` from
src/utils/src/lib.rs: fill `input_size` message bytes from
`StdRng::seed_from_u64(input_size)` and hash them with the `sha3` crate's
`Keccak256`.  The two external crates are modelled as explicit deterministic
function parameters: `stdRngBytes seed count` is the byte stream of a seeded
`StdRng` (the seed and the count are both `input_size` in the source) and
`keccak256` is the reference Keccak-256 digest function. -/
def generate_keccak_input (stdRngBytes : Nat → Nat → List Nat)
    (keccak256 : List Nat → List Nat) (input_size : Nat) : List Nat × List Nat :=
  (stdRngBytes input_size input_size, keccak256 (stdRngBytes input_size input_size))

/-! ### Row padding of the permutation sub-AIR -/

/-- Fuel-driven doubling loop behind `nextPow2`: starting from `acc`, double
until `n ≤ acc`. -/
def nextPow2Go (n : Nat) : Nat → Nat → Nat
  | 0, acc => acc
  | fuel + 1, acc => if n ≤ acc then acc else nextPow2Go n fuel (2 * acc)

/-- Modelled from the spec: the external `p3_keccak_air::generate_trace_rows`
pads the real row count (one row per round, `NUM_ROUNDS` per block) "with extra
rows to the next power of two if the real row count is not already a power of
two"; this is Rust's `usize::next_power_of_two` (smallest power of two `≥ n`). -/
def nextPow2 (n : Nat) : Nat := nextPow2Go n n 1

/-! ### The generated trace matrix (trace.rs, `generate_trace_and_public_digest_limbs`) -/

/-- A `RowMajorMatrix<F>` viewed through its dimensions and its `(row, column)`
entry; entries are meaningful for `row < height`, `column < width`. -/
structure TraceMatrix (F : Type) where
  height : Nat
  width : Nat
  cell : Nat → Nat → F

/-- The error cases of `generate_trace_and_public_digest_limbs` (`anyhow` bails
in the source, distinguished here by constructor):
`digestLen` = "expected 32-byte keccak digest",
`padMultiple` = "padding produced non-multiple of rate",
`digestMismatch` = "keccak sponge simulation digest mismatch",
`tooShort` = "keccak trace too short for expected hash_end row". -/
inductive TraceError
  | digestLen
  | padMultiple
  | digestMismatch
  | tooShort

/-- The entry of the full trace at row `r`, column `c`, as left by
`generate_trace_and_public_digest_limbs` after its write loops.  The buffer is
zero-initialised, the first `numKeccakCols` columns of each row are copied from
the permutation sub-AIR trace (modelled by `kcols`), and the write loops touch
pairwise disjoint column ranges, each cell at most once, so the final content is
this case split on the column index:
* flags (rows `0..height`): `active = 1` iff `r ≤ hash_end_row`, `seen_end = 0`
  iff `r ≤ hash_end_row`, `hash_end = 1` iff `r = hash_end_row`;
* block bits: row `r` belongs to permutation `r / NUM_ROUNDS`, written iff that
  index is a real block (`< block_bits.len()`), with `F::ONE`/`F::ZERO` by
  whether the recorded bit is 1;
* out bits: written on final-round rows (`(r+1) % NUM_ROUNDS = 0`, i.e.
  `r = (perm_idx+1)*NUM_ROUNDS - 1` for `perm_idx = r / NUM_ROUNDS`) of real
  permutations, from `state_to_bits_le` of that permutation's output. -/
def traceCell (F : Type) [Zero F] [One F] (kcols : Nat → Nat → F) (numKeccakCols : Nat)
    (hashEndRow : Nat) (blockBits : List (List Nat)) (permOutputs : List (List Nat))
    (r c : Nat) : F :=
  if c < numKeccakCols then kcols r c
  else if c = HASH_END_IDX numKeccakCols then (if r = hashEndRow then 1 else 0)
  else if c = SEEN_END_IDX numKeccakCols then (if r ≤ hashEndRow then 0 else 1)
  else if c = ACTIVE_IDX numKeccakCols then (if r ≤ hashEndRow then 1 else 0)
  else if c < BLOCK_BITS_START numKeccakCols + RATE_BITS then
    (if r / NUM_ROUNDS < blockBits.length then
      (if (blockBits.getD (r / NUM_ROUNDS) []).getD (c - BLOCK_BITS_START numKeccakCols) 0 = 1
       then 1 else 0)
     else 0)
  else if c < OUT_BITS_START numKeccakCols + STATE_BITS then
    (if (r + 1) % NUM_ROUNDS = 0 ∧ r / NUM_ROUNDS < permOutputs.length then
      (if (state_to_bits_le (permOutputs.getD (r / NUM_ROUNDS) [])).getD
            (c - OUT_BITS_START numKeccakCols) 0 = 1
       then 1 else 0)
     else 0)
  else 0

/-- The trace matrix built in the `Ok` branch: `height` rows come from the
external `p3_keccak_air::generate_trace_rows` (modelled from the spec: the real
row count `num_blocks * NUM_ROUNDS` padded to the next power of two), `width =
NUM_KECCAK_COLS + (1 + 1 + 1 + RATE_BITS + STATE_BITS)`, and the cells are
`traceCell`. -/
def trace_of (F : Type) [Zero F] [One F] (kcols : Nat → Nat → F) (numKeccakCols : Nat)
    (keccakF : List Nat → List Nat) (msg : List Nat) : TraceMatrix F :=
  ⟨nextPow2 (num_blocks_of msg * NUM_ROUNDS),
   numKeccakCols + (1 + 1 + 1 + RATE_BITS + STATE_BITS),
   traceCell F kcols numKeccakCols (hash_end_row_of msg) (block_bits_of msg)
     (perm_outputs_of keccakF msg)⟩

/-- `pub fn generate_trace_and_public_digest_limbs<F>(input_size) ->
Result<(RowMajorMatrix<F>, [u16; DIGEST_LIMBS])>` from trace.rs.  In source
order: get `(msg, digest)` from `utils::generate_keccak_input`, fail unless the
digest has 32 bytes; pad; fail if the padded length is not a multiple of the
rate; absorb all blocks recording permutation inputs/outputs; fail if the
sponge's 32-byte output differs from the reference digest; build the trace
(failing if `hash_end_row` is not below the height) and return it with
`digest_to_u16_limbs_le(digest)`.  External collaborators are parameters:
`stdRngBytes`/`keccak256` as in `generate_keccak_input`, `keccakF` the
`p3_keccak` permutation, `kcols`/`numKeccakCols` the `p3_keccak_air` columns. -/
def generate_trace_and_public_digest_limbs (F : Type) [Zero F] [One F]
    (stdRngBytes : Nat → Nat → List Nat) (keccak256 : List Nat → List Nat)
    (keccakF : List Nat → List Nat) (kcols : Nat → Nat → F) (numKeccakCols : Nat)
    (input_size : Nat) : Except TraceError (TraceMatrix F × List Nat) :=
  if (generate_keccak_input stdRngBytes keccak256 input_size).2.length ≠ 32 then
    Except.error TraceError.digestLen
  else if (keccak_pad10star1 (generate_keccak_input stdRngBytes keccak256 input_size).1).length
      % RATE_BYTES ≠ 0 then
    Except.error TraceError.padMultiple
  else if sponge_digest
      ((perm_outputs_of keccakF (generate_keccak_input stdRngBytes keccak256 input_size).1).getLastD
        (List.replicate 25 0))
      ≠ (generate_keccak_input stdRngBytes keccak256 input_size).2 then
    Except.error TraceError.digestMismatch
  else if nextPow2 (num_blocks_of (generate_keccak_input stdRngBytes keccak256 input_size).1
        * NUM_ROUNDS)
      ≤ hash_end_row_of (generate_keccak_input stdRngBytes keccak256 input_size).1 then
    Except.error TraceError.tooShort
  else
    Except.ok
      (trace_of F kcols numKeccakCols keccakF
        (generate_keccak_input stdRngBytes keccak256 input_size).1,
       digest_to_u16_limbs_le (generate_keccak_input stdRngBytes keccak256 input_size).2)

/-- The trace generator as invoked in an environment that also offers ambient
entropy (operating-system randomness available to any Rust program,
`ambientEntropy k` being the stream of bytes a `k`-th draw would produce).  The
source function never consults such a source — its only randomness is
`StdRng::seed_from_u64(input_size)` — which this wrapper makes explicit for the
determinism claim. -/
def generate_trace_with_ambient_entropy (F : Type) [Zero F] [One F]
    (ambientEntropy : Nat → List Nat)
    (stdRngBytes : Nat → Nat → List Nat) (keccak256 : List Nat → List Nat)
    (keccakF : List Nat → List Nat) (kcols : Nat → Nat → F) (numKeccakCols : Nat)
    (input_size : Nat) : Except TraceError (TraceMatrix F × List Nat) :=
  generate_trace_and_public_digest_limbs F stdRngBytes keccak256 keccakF kcols numKeccakCols
    input_size

/-! ### Field XOR gadgets (sponge_air.rs) -/

/-- `fn xor2(two, a, b) = a + b - two * a * b` (sponge_air.rs); `two` is passed
by the caller as the field constant `2`, exactly as in the source. -/
def xor2 {F : Type} [CommRing F] (two a b : F) : F :=
  a + b - two * a * b

/-- `fn xor3(two, a, b, c) = xor2(two, xor2(two, a, b), c)` (sponge_air.rs). -/
def xor3 {F : Type} [CommRing F] (two a b c : F) : F :=
  xor2 two (xor2 two a b) c

/-! ### The sponge AIR flag constraints (sponge_air.rs, `KeccakSpongeAir::eval`)

`eval` asserts, for a trace of `height` rows (`assert_zero` of the listed
expression; `when(g)` multiplies it by `g`; `when_first_row`/`when_last_row`
restrict to row `0` / row `height - 1`; `when_transition` restricts to rows
`r < height - 1`, constraining rows `r` and `r + 1`; `assert_bool_like x` is
`x * (x - 1) = 0`; `assert_one x` is `x = 1`).  Only the constraints on the
three control flags and the final-step indicator are collected here — they are
the ones claim C3 quantifies over. -/
def flag_constraints (F : Type) [CommRing F] (height : Nat)
    (hashEnd seenEnd active finalStep : Nat → F) : Prop :=
  (∀ r < height, hashEnd r * (hashEnd r - 1) = 0) ∧
  (∀ r < height, seenEnd r * (seenEnd r - 1) = 0) ∧
  (∀ r < height, active r * (active r - 1) = 0) ∧
  seenEnd 0 = 0 ∧
  active 0 = 1 ∧
  (∀ r < height - 1, seenEnd (r + 1) - (seenEnd r + hashEnd r) = 0) ∧
  (∀ r < height - 1, active (r + 1) - (active r - hashEnd r) = 0) ∧
  (∀ r < height, hashEnd r * ((1 - active r) * hashEnd r) = 0) ∧
  (∀ r < height, hashEnd r * (1 - finalStep r) = 0) ∧
  seenEnd (height - 1) = 1

/-! ### Concrete instantiations used by the witness theorems

A run of the generator at `input_size = 0` with the external collaborators
instantiated to executable stand-ins: the seeded byte stream yields the empty
message, the permutation is the identity, and the reference hash returns the
digest the identity-permutation sponge produces for the empty message (32
bytes: `0x01` then 31 zero bytes), so the generator's internal digest check
passes and the `Ok` branch is exercised. -/

def rng0 : Nat → Nat → List Nat := fun _ count => List.replicate count 0

def hash0 : List Nat → List Nat := fun _ => 1 :: List.replicate 31 0

def kcols0 : Nat → Nat → ZMod 3 := fun _ _ => 0

def run0 : Except TraceError (TraceMatrix (ZMod 3) × List Nat) :=
  generate_trace_and_public_digest_limbs (ZMod 3) rng0 hash0 id kcols0 5 0

def res0 : TraceMatrix (ZMod 3) × List Nat :=
  run0.toOption.getD ⟨⟨0, 0, fun _ _ => 0⟩, []⟩

def tr0 : TraceMatrix (ZMod 3) := res0.1

def limbs0 : List Nat := res0.2

/-- Flag columns of a 2-row trace satisfying all of `flag_constraints`. -/
def hashEnd0 : Nat → ZMod 3 := fun r => if r = 0 then 1 else 0

def seenEnd0 : Nat → ZMod 3 := fun r => if r = 0 then 0 else 1

def active0 : Nat → ZMod 3 := fun r => if r = 0 then 1 else 0

def finalStep0 : Nat → ZMod 3 := fun _ => 1

/-! ### Closed form of the padding loop -/

/-- With enough fuel (the loop needs at most `RATE_BYTES - 1` iterations), the
zero-padding loop appends exactly `RATE_BYTES - 1 - len % RATE_BYTES` zero
bytes. -/
theorem padWhile_eq : ∀ (fuel : Nat) (msg : List Nat),
    RATE_BYTES - 1 - msg.length % RATE_BYTES ≤ fuel →
    padWhile fuel msg = msg ++ List.replicate (RATE_BYTES - 1 - msg.length % RATE_BYTES) 0 := by
  intro fuel
  induction fuel with
  | zero =>
    intro msg h
    have h0 : RATE_BYTES - 1 - msg.length % RATE_BYTES = 0 := Nat.le_zero.mp h
    rw [h0]
    simp [padWhile]
  | succ f ih =>
    intro msg h
    unfold padWhile
    by_cases hc : msg.length % RATE_BYTES ≠ RATE_BYTES - 1
    · rw [if_pos hc]
      have hlen : (msg ++ [0x00]).length = msg.length + 1 := by simp
      have h1 : (msg.length + 1) % RATE_BYTES = msg.length % RATE_BYTES + 1 := by
        simp only [RATE_BYTES] at *
        omega
      have h2 : RATE_BYTES - 1 - (msg ++ [0x00]).length % RATE_BYTES ≤ f := by
        rw [hlen, h1]
        simp only [RATE_BYTES] at *
        omega
      rw [ih (msg ++ [0x00]) h2, hlen, h1]
      have h3 : RATE_BYTES - 1 - msg.length % RATE_BYTES
          = (RATE_BYTES - 1 - (msg.length % RATE_BYTES + 1)) + 1 := by
        simp only [RATE_BYTES] at *
        omega
      rw [h3, List.append_assoc]
      simp [List.replicate_succ]
    · rw [if_neg hc]
      push_neg at hc
      rw [hc]
      simp

/-- `keccak_pad10star1 msg = msg ++ 0x01 ++ 0^z ++ 0x80` with
`z = RATE_BYTES - 1 - (len+1) % RATE_BYTES`. -/
theorem keccak_pad10star1_eq (msg : List Nat) :
    keccak_pad10star1 msg =
      msg ++ 1 :: (List.replicate (RATE_BYTES - 1 - (msg.length + 1) % RATE_BYTES) 0 ++ [0x80]) := by
  unfold keccak_pad10star1
  rw [padWhile_eq RATE_BYTES (msg ++ [0x01]) (by simp only [RATE_BYTES]; omega)]
  simp

/-- Length of the padded buffer. -/
theorem keccak_pad10star1_length (msg : List Nat) :
    (keccak_pad10star1 msg).length =
      msg.length + 2 + (RATE_BYTES - 1 - (msg.length + 1) % RATE_BYTES) := by
  rw [keccak_pad10star1_eq]
  simp
  omega

/-- The padded length is always a multiple of the rate. -/
theorem keccak_pad10star1_length_mod (msg : List Nat) :
    (keccak_pad10star1 msg).length % RATE_BYTES = 0 := by
  rw [keccak_pad10star1_length]
  simp only [RATE_BYTES]
  omega

/-- The padded length is positive. -/
theorem keccak_pad10star1_length_pos (msg : List Nat) :
    0 < (keccak_pad10star1 msg).length := by
  rw [keccak_pad10star1_length]
  omega

/-- At least one block is always absorbed. -/
theorem one_le_num_blocks (msg : List Nat) : 1 ≤ num_blocks_of msg := by
  unfold num_blocks_of
  have h := keccak_pad10star1_length msg
  simp only [RATE_BYTES] at *
  omega

/-! ### Facts about the row padding -/

theorem nextPow2Go_isPow2 (n : Nat) :
    ∀ fuel acc, (∃ k, acc = 2 ^ k) → ∃ k, nextPow2Go n fuel acc = 2 ^ k := by
  intro fuel
  induction fuel with
  | zero => intro acc h; simpa [nextPow2Go] using h
  | succ f ih =>
    intro acc h
    unfold nextPow2Go
    split
    · exact h
    · apply ih
      obtain ⟨k, rfl⟩ := h
      exact ⟨k + 1, by ring⟩

theorem nextPow2Go_ge (n : Nat) :
    ∀ fuel acc, n ≤ 2 ^ fuel * acc → n ≤ nextPow2Go n fuel acc := by
  intro fuel
  induction fuel with
  | zero => intro acc h; simpa [nextPow2Go] using h
  | succ f ih =>
    intro acc h
    unfold nextPow2Go
    split
    · assumption
    · apply ih
      calc n ≤ 2 ^ (f + 1) * acc := h
        _ = 2 ^ f * (2 * acc) := by ring

theorem le_nextPow2 (n : Nat) : n ≤ nextPow2 n := by
  apply nextPow2Go_ge
  have := Nat.lt_two_pow n
  omega

theorem nextPow2_isPow2 (n : Nat) : ∃ k, nextPow2 n = 2 ^ k :=
  nextPow2Go_isPow2 n n 1 ⟨0, rfl⟩

/-- `m * NUM_ROUNDS` (for `m ≥ 1`) is divisible by 3, hence never a power of
two, hence strictly below its power-of-two round-up. -/
theorem mul_rounds_lt_nextPow2 (m : Nat) (hm : 1 ≤ m) :
    m * NUM_ROUNDS < nextPow2 (m * NUM_ROUNDS) := by
  rcases Nat.lt_or_ge (m * NUM_ROUNDS) (nextPow2 (m * NUM_ROUNDS)) with h | h
  · exact h
  · exfalso
    have heq : nextPow2 (m * NUM_ROUNDS) = m * NUM_ROUNDS :=
      le_antisymm h (le_nextPow2 _)
    obtain ⟨k, hk⟩ := nextPow2_isPow2 (m * NUM_ROUNDS)
    have h3 : (3 : Nat) ∣ 2 ^ k := by
      rw [← hk, heq]
      exact ⟨m * 8, by simp only [NUM_ROUNDS]; ring⟩
    have h32 := Nat.Prime.dvd_of_dvd_pow (by norm_num : Nat.Prime 3) h3
    omega

/-! ### Indexing helper -/

/-- Entry `i` of the length-`n` table `(List.range n).map f`. -/
theorem getD_range_map (f : Nat → Nat) (n i : Nat) (hi : i < n) :
    ((List.range n).map f).getD i 0 = f i := by
  rw [List.getD_eq_getElem?_getD, List.getElem?_map, List.getElem?_range hi]
  rfl

/-! ### Evaluating the generator on its success path -/

/-- What `Ok` tells us: the returned matrix and limbs are the ones built in the
success branch, the reference digest had 32 bytes, and `hash_end_row` is below
the height. -/
theorem generate_ok_elim (F : Type) [Zero F] [One F]
    (stdRngBytes : Nat → Nat → List Nat) (keccak256 : List Nat → List Nat)
    (keccakF : List Nat → List Nat) (kcols : Nat → Nat → F) (numKeccakCols input_size : Nat)
    (tr : TraceMatrix F) (limbs : List Nat)
    (h : generate_trace_and_public_digest_limbs F stdRngBytes keccak256 keccakF kcols
        numKeccakCols input_size = Except.ok (tr, limbs)) :
    tr = trace_of F kcols numKeccakCols keccakF
        (generate_keccak_input stdRngBytes keccak256 input_size).1 ∧
    limbs = digest_to_u16_limbs_le (generate_keccak_input stdRngBytes keccak256 input_size).2 ∧
    (generate_keccak_input stdRngBytes keccak256 input_size).2.length = 32 ∧
    hash_end_row_of (generate_keccak_input stdRngBytes keccak256 input_size).1 <
      nextPow2 (num_blocks_of (generate_keccak_input stdRngBytes keccak256 input_size).1
        * NUM_ROUNDS) := by
  unfold generate_trace_and_public_digest_limbs at h
  split_ifs at h with h1 h2 h3 h4
  simp only [Except.ok.injEq, Prod.mk.injEq] at h
  refine ⟨h.1.symm, h.2.symm, by simpa using h1, by omega⟩

/-! ### Reading single cells of the generated trace -/

theorem traceCell_hash_end (F : Type) [Zero F] [One F] (kcols : Nat → Nat → F)
    (W her : Nat) (bb outs : List (List Nat)) (r : Nat) :
    traceCell F kcols W her bb outs r (HASH_END_IDX W) = if r = her then 1 else 0 := by
  simp [traceCell, HASH_END_IDX, SEEN_END_IDX, ACTIVE_IDX, BLOCK_BITS_START, OUT_BITS_START]

theorem traceCell_seen_end (F : Type) [Zero F] [One F] (kcols : Nat → Nat → F)
    (W her : Nat) (bb outs : List (List Nat)) (r : Nat) :
    traceCell F kcols W her bb outs r (SEEN_END_IDX W) = if r ≤ her then 0 else 1 := by
  simp [traceCell, HASH_END_IDX, SEEN_END_IDX, ACTIVE_IDX, BLOCK_BITS_START, OUT_BITS_START]

theorem traceCell_active (F : Type) [Zero F] [One F] (kcols : Nat → Nat → F)
    (W her : Nat) (bb outs : List (List Nat)) (r : Nat) :
    traceCell F kcols W her bb outs r (ACTIVE_IDX W) = if r ≤ her then 1 else 0 := by
  simp [traceCell, HASH_END_IDX, SEEN_END_IDX, ACTIVE_IDX, BLOCK_BITS_START, OUT_BITS_START]
  rw [if_neg (by omega), if_neg (by omega)]

theorem traceCell_block_bits (F : Type) [Zero F] [One F] (kcols : Nat → Nat → F)
    (W her : Nat) (bb outs : List (List Nat)) (r i : Nat) (hi : i < RATE_BITS) :
    traceCell F kcols W her bb outs r (BLOCK_BITS_START W + i) =
      if r / NUM_ROUNDS < bb.length then
        (if (bb.getD (r / NUM_ROUNDS) []).getD i 0 = 1 then 1 else 0)
      else 0 := by
  simp only [traceCell, HASH_END_IDX, SEEN_END_IDX, ACTIVE_IDX, BLOCK_BITS_START, OUT_BITS_START]
  simp only [RATE_BITS, STATE_BITS] at hi ⊢
  rw [if_neg (by omega), if_neg (by omega), if_neg (by omega), if_neg (by omega),
    if_pos (by omega)]
  have hsub : W + 1 + 1 + 1 + i - (W + 1 + 1 + 1) = i := by omega
  simp only [hsub]

theorem traceCell_out_bits (F : Type) [Zero F] [One F] (kcols : Nat → Nat → F)
    (W her : Nat) (bb outs : List (List Nat)) (r i : Nat) (hi : i < STATE_BITS) :
    traceCell F kcols W her bb outs r (OUT_BITS_START W + i) =
      if (r + 1) % NUM_ROUNDS = 0 ∧ r / NUM_ROUNDS < outs.length then
        (if (state_to_bits_le (outs.getD (r / NUM_ROUNDS) [])).getD i 0 = 1 then 1 else 0)
      else 0 := by
  simp only [traceCell, HASH_END_IDX, SEEN_END_IDX, ACTIVE_IDX, BLOCK_BITS_START, OUT_BITS_START]
  simp only [RATE_BITS, STATE_BITS] at hi ⊢
  rw [if_neg (by omega)]
  rw [if_neg (by omega)]
  rw [if_neg (by omega)]
  rw [if_neg (by omega)]
  rw [if_neg (by omega)]
  rw [if_pos (by omega)]
  have hsub : W + 1 + 1 + 1 + 1088 + i - (W + 1 + 1 + 1 + 1088) = i := by omega
  simp only [hsub]

/-- One permutation output is recorded per absorbed block. -/
theorem sponge_steps_outputs_length (keccakF : List Nat → List Nat) :
    ∀ (blocks : List (List Nat)) (state : List Nat),
      (sponge_steps keccakF state blocks).2.length = blocks.length := by
  intro blocks
  induction blocks with
  | nil => intro state; rfl
  | cons b rest ih =>
    intro state
    simp [sponge_steps, ih]

theorem perm_outputs_of_length (keccakF : List Nat → List Nat) (msg : List Nat) :
    (perm_outputs_of keccakF msg).length = num_blocks_of msg := by
  unfold perm_outputs_of num_blocks_of blocks_of
  rw [sponge_steps_outputs_length]
  simp

/-- A row is the final-round row of a real permutation (`r = (b+1)*NUM_ROUNDS - 1`
for some block index `b < nb`) exactly when `(r+1) % NUM_ROUNDS = 0` and
`r / NUM_ROUNDS < nb`. -/
theorem final_round_row_iff (r nb : Nat) :
    (∃ b, b < nb ∧ r = (b + 1) * NUM_ROUNDS - 1) ↔
      ((r + 1) % NUM_ROUNDS = 0 ∧ r / NUM_ROUNDS < nb) := by
  simp only [NUM_ROUNDS]
  constructor
  · rintro ⟨b, hb, rfl⟩
    constructor
    · omega
    · omega
  · rintro ⟨h1, h2⟩
    exact ⟨r / 24, h2, by omega⟩

/-! ### Claims about the padding routine -/

/-- C10: for every message, `keccak_pad10star1` returns the message followed by
an appended suffix of at least 2 and at most 137 bytes whose first byte is
`0x01` and whose last byte is `0x80`; in particular the message is a proper
initial segment of the padded buffer and the single combined `0x81` byte of
standard Keccak pad10*1 never occurs, since at least two bytes are always
appended. -/
theorem pad_appends_two_to_137_bytes (msg : List Nat) :
    ∃ suffix : List Nat,
      keccak_pad10star1 msg = msg ++ suffix ∧
      2 ≤ suffix.length ∧ suffix.length ≤ 137 ∧
      suffix.head? = some 0x01 ∧ suffix.getLast? = some 0x80 := by
  refine ⟨1 :: (List.replicate (RATE_BYTES - 1 - (msg.length + 1) % RATE_BYTES) 0 ++ [0x80]),
    keccak_pad10star1_eq msg, ?_, ?_, rfl, ?_⟩
  · simp
  · simp only [RATE_BYTES]
    simp
  · rw [show (1 : Nat) :: (List.replicate (RATE_BYTES - 1 - (msg.length + 1) % RATE_BYTES) 0
        ++ [0x80])
      = ((1 : Nat) :: List.replicate (RATE_BYTES - 1 - (msg.length + 1) % RATE_BYTES) 0)
        ++ [0x80] from rfl]
    exact List.getLast?_concat _

/-- C2 is false of the code: a message of exactly 135 bytes (one byte short of
the rate) is padded to 272 bytes, i.e. TWO absorbed blocks, because the 0x01
suffix occupies the one free byte and the loop then adds a whole extra block of
padding; a message of exactly 136 bytes also yields two blocks (as claimed). -/
theorem pad_at_rate_boundary_two_blocks (m1 m2 : List Nat)
    (h1 : m1.length = 135) (h2 : m2.length = 136) :
    (keccak_pad10star1 m1).length / RATE_BYTES = 2 ∧
    (keccak_pad10star1 m2).length / RATE_BYTES = 2 := by
  constructor
  · rw [keccak_pad10star1_length, h1]
    simp only [RATE_BYTES]
  · rw [keccak_pad10star1_length, h2]
    simp only [RATE_BYTES]

/-- Witness for `pad_at_rate_boundary_two_blocks` at concrete 135- and 136-byte
messages. -/
theorem pad_at_rate_boundary_two_blocks_witness :
    (List.replicate 135 (0 : Nat)).length = 135 ∧
    (List.replicate 136 (0 : Nat)).length = 136 ∧
    (keccak_pad10star1 (List.replicate 135 0)).length / RATE_BYTES = 2 ∧
    (keccak_pad10star1 (List.replicate 136 0)).length / RATE_BYTES = 2 :=
  ⟨by simp, by simp,
    (pad_at_rate_boundary_two_blocks (List.replicate 135 0) (List.replicate 136 0)
      (by simp) (by simp)).1,
    (pad_at_rate_boundary_two_blocks (List.replicate 135 0) (List.replicate 136 0)
      (by simp) (by simp)).2⟩

/-- C6: the padded buffer always has positive length divisible by `RATE_BYTES`,
and consequently the fatal "padding produced non-multiple of rate" branch of
`generate_trace_and_public_digest_limbs` is unreachable for every input. -/
theorem pad_multiple_of_rate_and_bail_unreachable :
    (∀ msg : List Nat,
      (keccak_pad10star1 msg).length % RATE_BYTES = 0 ∧ 0 < (keccak_pad10star1 msg).length) ∧
    (∀ (F : Type) (i0 : Zero F) (i1 : One F)
       (stdRngBytes : Nat → Nat → List Nat) (keccak256 : List Nat → List Nat)
       (keccakF : List Nat → List Nat) (kcols : Nat → Nat → F) (numKeccakCols input_size : Nat),
      @generate_trace_and_public_digest_limbs F i0 i1 stdRngBytes keccak256 keccakF kcols
          numKeccakCols input_size ≠ Except.error TraceError.padMultiple) := by
  constructor
  · intro msg
    exact ⟨keccak_pad10star1_length_mod msg, keccak_pad10star1_length_pos msg⟩
  · intro F i0 i1 stdRngBytes keccak256 keccakF kcols numKeccakCols input_size h
    unfold generate_trace_and_public_digest_limbs at h
    split_ifs at h with h1 h2 h3 h4
    · exact TraceError.noConfusion (Except.error.inj h)
    · exact h2 (keccak_pad10star1_length_mod _)
    · exact TraceError.noConfusion (Except.error.inj h)
    · exact TraceError.noConfusion (Except.error.inj h)

/-! ### Claims about the generated trace and public values -/

/-- C1: whenever `generate_trace_and_public_digest_limbs` returns `Ok`, the
returned digest limbs are exactly the 16 little-endian 16-bit limbs of the
reference Keccak-256 digest of the generated message (and that digest has 32
bytes): `digest_limbs[i] = digest[2*i] + 256 * digest[2*i+1]` for `i < 16`. -/
theorem digest_limbs_are_reference_digest_limbs (F : Type) [Zero F] [One F]
    (stdRngBytes : Nat → Nat → List Nat) (keccak256 : List Nat → List Nat)
    (keccakF : List Nat → List Nat) (kcols : Nat → Nat → F) (numKeccakCols input_size : Nat)
    (tr : TraceMatrix F) (limbs : List Nat)
    (h : generate_trace_and_public_digest_limbs F stdRngBytes keccak256 keccakF kcols
        numKeccakCols input_size = Except.ok (tr, limbs)) :
    limbs = digest_to_u16_limbs_le (generate_keccak_input stdRngBytes keccak256 input_size).2 ∧
    (generate_keccak_input stdRngBytes keccak256 input_size).2.length = 32 ∧
    ∀ i < DIGEST_LIMBS,
      limbs.getD i 0 =
        (generate_keccak_input stdRngBytes keccak256 input_size).2.getD (2 * i) 0 +
          256 * (generate_keccak_input stdRngBytes keccak256 input_size).2.getD (2 * i + 1) 0 := by
  obtain ⟨htr, hlimbs, hlen, hher⟩ :=
    generate_ok_elim F stdRngBytes keccak256 keccakF kcols numKeccakCols input_size tr limbs h
  refine ⟨hlimbs, hlen, ?_⟩
  intro i hi
  rw [hlimbs]
  unfold digest_to_u16_limbs_le
  rw [getD_range_map _ _ _ hi]

/-- C5: in every trace returned by the generator, `hash_end_row` lies strictly
below `height - 1` (the real row count `num_blocks * 24`, being divisible by 3,
is never a power of two, so the power-of-two row padding adds at least one
row), and hence the last row carries `seen_end = 1`. -/
theorem last_row_seen_end_one (F : Type) [Zero F] [One F]
    (stdRngBytes : Nat → Nat → List Nat) (keccak256 : List Nat → List Nat)
    (keccakF : List Nat → List Nat) (kcols : Nat → Nat → F) (numKeccakCols input_size : Nat)
    (tr : TraceMatrix F) (limbs : List Nat)
    (h : generate_trace_and_public_digest_limbs F stdRngBytes keccak256 keccakF kcols
        numKeccakCols input_size = Except.ok (tr, limbs)) :
    hash_end_row_of (generate_keccak_input stdRngBytes keccak256 input_size).1 < tr.height - 1 ∧
    tr.cell (tr.height - 1) (SEEN_END_IDX numKeccakCols) = 1 := by
  obtain ⟨htr, hlimbs, hlen, hher⟩ :=
    generate_ok_elim F stdRngBytes keccak256 keccakF kcols numKeccakCols input_size tr limbs h
  subst htr
  have hnb := one_le_num_blocks (generate_keccak_input stdRngBytes keccak256 input_size).1
  have hlt := mul_rounds_lt_nextPow2
    (num_blocks_of (generate_keccak_input stdRngBytes keccak256 input_size).1) hnb
  have hhgt : hash_end_row_of (generate_keccak_input stdRngBytes keccak256 input_size).1 <
      (trace_of F kcols numKeccakCols keccakF
        (generate_keccak_input stdRngBytes keccak256 input_size).1).height - 1 := by
    simp only [trace_of]
    unfold hash_end_row_of
    simp only [NUM_ROUNDS] at *
    omega
  refine ⟨hhgt, ?_⟩
  simp only [trace_of] at hhgt ⊢
  rw [traceCell_seen_end]
  rw [if_neg (by omega)]

/-- C4: in every trace returned by the generator, with
`hash_end_row = num_blocks * 24 - 1`: `active[r] = 1` iff `r ≤ hash_end_row`,
`seen_end[r] = 1` iff `r > hash_end_row`, and `hash_end[r] = 1` iff
`r = hash_end_row`, for every row `r < height`; in particular exactly one row
has `hash_end = 1`, and `active` is non-increasing along rows. -/
theorem flag_columns_characterization (F : Type) [Zero F] [One F] (hF : (1 : F) ≠ 0)
    (stdRngBytes : Nat → Nat → List Nat) (keccak256 : List Nat → List Nat)
    (keccakF : List Nat → List Nat) (kcols : Nat → Nat → F) (numKeccakCols input_size : Nat)
    (tr : TraceMatrix F) (limbs : List Nat)
    (h : generate_trace_and_public_digest_limbs F stdRngBytes keccak256 keccakF kcols
        numKeccakCols input_size = Except.ok (tr, limbs)) :
    (∀ r < tr.height,
      (tr.cell r (ACTIVE_IDX numKeccakCols) = 1 ↔
        r ≤ hash_end_row_of (generate_keccak_input stdRngBytes keccak256 input_size).1)) ∧
    (∀ r < tr.height,
      (tr.cell r (SEEN_END_IDX numKeccakCols) = 1 ↔
        hash_end_row_of (generate_keccak_input stdRngBytes keccak256 input_size).1 < r)) ∧
    (∀ r < tr.height,
      (tr.cell r (HASH_END_IDX numKeccakCols) = 1 ↔
        r = hash_end_row_of (generate_keccak_input stdRngBytes keccak256 input_size).1)) ∧
    (∃! r, r < tr.height ∧ tr.cell r (HASH_END_IDX numKeccakCols) = 1) ∧
    (∀ r, r + 1 < tr.height →
      tr.cell (r + 1) (ACTIVE_IDX numKeccakCols) = 1 →
        tr.cell r (ACTIVE_IDX numKeccakCols) = 1) := by
  obtain ⟨htr, hlimbs, hlen, hher⟩ :=
    generate_ok_elim F stdRngBytes keccak256 keccakF kcols numKeccakCols input_size tr limbs h
  subst htr
  simp only [trace_of] at hher ⊢
  have h0F : (0 : F) ≠ 1 := fun hc => hF hc.symm
  refine ⟨?_, ?_, ?_, ?_, ?_⟩
  · intro r hr
    rw [traceCell_active]
    by_cases hc : r ≤ hash_end_row_of (generate_keccak_input stdRngBytes keccak256 input_size).1
    · simp [hc]
    · simp [hc, h0F]
  · intro r hr
    rw [traceCell_seen_end]
    by_cases hc : r ≤ hash_end_row_of (generate_keccak_input stdRngBytes keccak256 input_size).1
    · simp [hc, h0F]
    · simp [hc]
      omega
  · intro r hr
    rw [traceCell_hash_end]
    by_cases hc : r = hash_end_row_of (generate_keccak_input stdRngBytes keccak256 input_size).1
    · simp [hc]
    · simp [hc, h0F]
  · refine ⟨hash_end_row_of (generate_keccak_input stdRngBytes keccak256 input_size).1,
      ⟨hher, by rw [traceCell_hash_end, if_pos rfl]⟩, ?_⟩
    rintro y ⟨hy1, hy2⟩
    rw [traceCell_hash_end] at hy2
    by_cases hc : y = hash_end_row_of (generate_keccak_input stdRngBytes keccak256 input_size).1
    · exact hc
    · rw [if_neg hc] at hy2
      exact absurd hy2 h0F
  · intro r hr hcell
    rw [traceCell_active] at hcell ⊢
    by_cases hc : r + 1 ≤ hash_end_row_of (generate_keccak_input stdRngBytes keccak256 input_size).1
    · rw [if_pos (by omega)]
    · rw [if_neg hc] at hcell
      exact absurd hcell h0F

/-- C7: in every trace returned by the generator, the 1600 `out_bits` columns
are all zero on every row except the final-round rows `(b+1)*24 - 1` of real
block indices `b < num_blocks`, where `out_bits` holds the little-endian bit
decomposition of block `b`'s permutation output: bit `lane*64 + z` is bit `z`
of output lane `lane`. -/
theorem out_bits_characterization (F : Type) [Zero F] [One F]
    (stdRngBytes : Nat → Nat → List Nat) (keccak256 : List Nat → List Nat)
    (keccakF : List Nat → List Nat) (kcols : Nat → Nat → F) (numKeccakCols input_size : Nat)
    (tr : TraceMatrix F) (limbs : List Nat)
    (h : generate_trace_and_public_digest_limbs F stdRngBytes keccak256 keccakF kcols
        numKeccakCols input_size = Except.ok (tr, limbs)) :
    (∀ r < tr.height,
      (¬ ∃ b, b < num_blocks_of (generate_keccak_input stdRngBytes keccak256 input_size).1 ∧
          r = (b + 1) * NUM_ROUNDS - 1) →
      ∀ i < STATE_BITS, tr.cell r (OUT_BITS_START numKeccakCols + i) = 0) ∧
    (∀ b < num_blocks_of (generate_keccak_input stdRngBytes keccak256 input_size).1,
      ∀ lane < 25, ∀ z < 64,
        tr.cell ((b + 1) * NUM_ROUNDS - 1) (OUT_BITS_START numKeccakCols + (lane * 64 + z)) =
          (if ((perm_outputs_of keccakF
                  (generate_keccak_input stdRngBytes keccak256 input_size).1).getD b []).getD
                lane 0 / 2 ^ z % 2 = 1
           then 1 else 0)) := by
  obtain ⟨htr, hlimbs, hlen, hher⟩ :=
    generate_ok_elim F stdRngBytes keccak256 keccakF kcols numKeccakCols input_size tr limbs h
  subst htr
  simp only [trace_of] at hher ⊢
  have houts := perm_outputs_of_length keccakF
    (generate_keccak_input stdRngBytes keccak256 input_size).1
  constructor
  · intro r hr hnot i hi
    rw [traceCell_out_bits F kcols numKeccakCols _ _ _ r i hi]
    rw [if_neg ?_]
    rw [houts]
    intro hcond
    exact hnot ((final_round_row_iff r _).mpr hcond)
  · intro b hb lane hlane z hz
    have hi : lane * 64 + z < STATE_BITS := by
      simp only [STATE_BITS]
      omega
    rw [traceCell_out_bits F kcols numKeccakCols _ _ _ _ _ hi]
    have hdivb : ((b + 1) * NUM_ROUNDS - 1) / NUM_ROUNDS = b := by
      simp only [NUM_ROUNDS]
      omega
    have hcond : ((b + 1) * NUM_ROUNDS - 1 + 1) % NUM_ROUNDS = 0 ∧
        ((b + 1) * NUM_ROUNDS - 1) / NUM_ROUNDS <
          ((perm_outputs_of keccakF
            (generate_keccak_input stdRngBytes keccak256 input_size).1)).length := by
      rw [houts, hdivb]
      refine ⟨?_, hb⟩
      simp only [NUM_ROUNDS]
      omega
    rw [if_pos hcond, hdivb]
    unfold state_to_bits_le
    rw [getD_range_map _ _ _ hi]
    have hdiv : (lane * 64 + z) / 64 = lane := by omega
    have hmod : (lane * 64 + z) % 64 = z := by omega
    rw [hdiv, hmod]

/-- C9: the trace generator is deterministic.  The message (and with it every
later value) is derived from `input_size` through the fixed seeded generator,
and no other input is consumed, so two invocations — here, invocations in
environments offering arbitrary and different ambient entropy — return
identical results (the same `Ok` trace and limbs, or the same error). -/
theorem generator_is_deterministic (F : Type) (i0 : Zero F) (i1 : One F)
    (entropy1 entropy2 : Nat → List Nat)
    (stdRngBytes : Nat → Nat → List Nat) (keccak256 : List Nat → List Nat)
    (keccakF : List Nat → List Nat) (kcols : Nat → Nat → F) (numKeccakCols input_size : Nat) :
    @generate_trace_with_ambient_entropy F i0 i1 entropy1 stdRngBytes keccak256 keccakF kcols
        numKeccakCols input_size =
      @generate_trace_with_ambient_entropy F i0 i1 entropy2 stdRngBytes keccak256 keccakF kcols
        numKeccakCols input_size := rfl

/-! ### Claims about the sponge AIR constraints -/

/-- C3: over a field, any assignment of the `hash_end`, `seen_end`, `active`
columns on a trace of at least two rows that satisfies the evaluator's flag
constraints has `Σ_r hash_end[r] = 1`. -/
theorem sum_hash_end_eq_one (F : Type) [Field F] (height : Nat)
    (hashEnd seenEnd active finalStep : Nat → F)
    (hh : 2 ≤ height)
    (hc : flag_constraints F height hashEnd seenEnd active finalStep) :
    ∑ r ∈ Finset.range height, hashEnd r = 1 := by
  obtain ⟨hbE, hbS, hbA, hs0, ha0, htS, htA, hgA, hgF, hlast⟩ := hc
  have key : ∀ r, r < height →
      seenEnd r = ∑ i ∈ Finset.range r, hashEnd i ∧
      active r = 1 - ∑ i ∈ Finset.range r, hashEnd i := by
    intro r
    induction r with
    | zero =>
      intro _
      refine ⟨by simpa using hs0, by simpa using ha0⟩
    | succ k ih =>
      intro hk
      obtain ⟨ihS, ihA⟩ := ih (by omega)
      have e1 : seenEnd (k + 1) = seenEnd k + hashEnd k :=
        sub_eq_zero.mp (htS k (by omega))
      have e2 : active (k + 1) = active k - hashEnd k :=
        sub_eq_zero.mp (htA k (by omega))
      constructor
      · rw [e1, ihS, Finset.sum_range_succ]
      · rw [e2, ihA, Finset.sum_range_succ]
        ring
  have hl : height - 1 < height := by omega
  obtain ⟨hS, hA⟩ := key (height - 1) hl
  have hsum1 : ∑ i ∈ Finset.range (height - 1), hashEnd i = 1 := by
    rw [← hS]
    exact hlast
  have hA0 : active (height - 1) = 0 := by
    rw [hA, hsum1]
    ring
  have hhe0 : hashEnd (height - 1) = 0 := by
    rcases mul_eq_zero.mp (hbE (height - 1) hl) with h0 | h1
    · exact h0
    · exfalso
      have h1e : hashEnd (height - 1) = 1 := sub_eq_zero.mp h1
      have hg := hgA (height - 1) hl
      rw [h1e, hA0] at hg
      simp at hg
  obtain ⟨m, rfl⟩ : ∃ m, height = m + 1 := ⟨height - 1, by omega⟩
  simp only [Nat.add_sub_cancel] at hsum1 hhe0
  rw [Finset.sum_range_succ, hsum1, hhe0, add_zero]

/-- C8: for field elements that are 0 or 1, in a field of characteristic
different from 2, `xor2 2 a b = a + b - 2ab` is the boolean exclusive-or of its
arguments (and is itself 0 or 1), and `xor3 2 a b c = xor2 2 (xor2 2 a b) c` is
the three-way boolean exclusive-or. -/
theorem xor2_xor3_boolean (F : Type) [Field F] (h2 : (2 : F) ≠ 0) (a b c : F)
    (ha : a = 0 ∨ a = 1) (hb : b = 0 ∨ b = 1) (hc : c = 0 ∨ c = 1) :
    (xor2 2 a b = 0 ∨ xor2 2 a b = 1) ∧
    (xor2 2 a b = 1 ↔ Xor' (a = 1) (b = 1)) ∧
    (xor3 2 a b c = 0 ∨ xor3 2 a b c = 1) ∧
    (xor3 2 a b c = 1 ↔ Xor' (Xor' (a = 1) (b = 1)) (c = 1)) := by
  have hx00 : xor2 (2 : F) 0 0 = 0 := by unfold xor2; ring
  have hx01 : xor2 (2 : F) 0 1 = 1 := by unfold xor2; ring
  have hx10 : xor2 (2 : F) 1 0 = 1 := by unfold xor2; ring
  have hx11 : xor2 (2 : F) 1 1 = 0 := by unfold xor2; ring
  rcases ha with rfl | rfl <;> rcases hb with rfl | rfl <;> rcases hc with rfl | rfl <;>
    simp [xor3, hx00, hx01, hx10, hx11, Xor', zero_ne_one]

/-! ### Witness runs -/

set_option maxRecDepth 10000 in
/-- Witness for `digest_limbs_are_reference_digest_limbs`: the concrete run
`run0` returns `Ok (tr0, limbs0)` and the conclusion holds there. -/
theorem digest_limbs_are_reference_digest_limbs_witness :
    generate_trace_and_public_digest_limbs (ZMod 3) rng0 hash0 id kcols0 5 0 =
      Except.ok (tr0, limbs0) ∧
    (limbs0 = digest_to_u16_limbs_le (generate_keccak_input rng0 hash0 0).2 ∧
     (generate_keccak_input rng0 hash0 0).2.length = 32 ∧
     ∀ i < DIGEST_LIMBS,
       limbs0.getD i 0 =
         (generate_keccak_input rng0 hash0 0).2.getD (2 * i) 0 +
           256 * (generate_keccak_input rng0 hash0 0).2.getD (2 * i + 1) 0) :=
  ⟨rfl, digest_limbs_are_reference_digest_limbs (ZMod 3) rng0 hash0 id kcols0 5 0 tr0 limbs0 rfl⟩

set_option maxRecDepth 10000 in
/-- Witness for `last_row_seen_end_one` on the concrete run. -/
theorem last_row_seen_end_one_witness :
    generate_trace_and_public_digest_limbs (ZMod 3) rng0 hash0 id kcols0 5 0 =
      Except.ok (tr0, limbs0) ∧
    (hash_end_row_of (generate_keccak_input rng0 hash0 0).1 < tr0.height - 1 ∧
     tr0.cell (tr0.height - 1) (SEEN_END_IDX 5) = 1) :=
  ⟨rfl, last_row_seen_end_one (ZMod 3) rng0 hash0 id kcols0 5 0 tr0 limbs0 rfl⟩

set_option maxRecDepth 10000 in
/-- Witness for `flag_columns_characterization` on the concrete run. -/
theorem flag_columns_characterization_witness :
    ((1 : ZMod 3) ≠ 0) ∧
    generate_trace_and_public_digest_limbs (ZMod 3) rng0 hash0 id kcols0 5 0 =
      Except.ok (tr0, limbs0) ∧
    ((∀ r < tr0.height,
       (tr0.cell r (ACTIVE_IDX 5) = 1 ↔
         r ≤ hash_end_row_of (generate_keccak_input rng0 hash0 0).1)) ∧
     (∀ r < tr0.height,
       (tr0.cell r (SEEN_END_IDX 5) = 1 ↔
         hash_end_row_of (generate_keccak_input rng0 hash0 0).1 < r)) ∧
     (∀ r < tr0.height,
       (tr0.cell r (HASH_END_IDX 5) = 1 ↔
         r = hash_end_row_of (generate_keccak_input rng0 hash0 0).1)) ∧
     (∃! r, r < tr0.height ∧ tr0.cell r (HASH_END_IDX 5) = 1) ∧
     (∀ r, r + 1 < tr0.height →
       tr0.cell (r + 1) (ACTIVE_IDX 5) = 1 → tr0.cell r (ACTIVE_IDX 5) = 1)) :=
  ⟨by decide, rfl,
    flag_columns_characterization (ZMod 3) (by decide) rng0 hash0 id kcols0 5 0 tr0 limbs0 rfl⟩

set_option maxRecDepth 10000 in
/-- Witness for `out_bits_characterization` on the concrete run. -/
theorem out_bits_characterization_witness :
    generate_trace_and_public_digest_limbs (ZMod 3) rng0 hash0 id kcols0 5 0 =
      Except.ok (tr0, limbs0) ∧
    ((∀ r < tr0.height,
       (¬ ∃ b, b < num_blocks_of (generate_keccak_input rng0 hash0 0).1 ∧
           r = (b + 1) * NUM_ROUNDS - 1) →
       ∀ i < STATE_BITS, tr0.cell r (OUT_BITS_START 5 + i) = 0) ∧
     (∀ b < num_blocks_of (generate_keccak_input rng0 hash0 0).1,
       ∀ lane < 25, ∀ z < 64,
         tr0.cell ((b + 1) * NUM_ROUNDS - 1) (OUT_BITS_START 5 + (lane * 64 + z)) =
           (if ((perm_outputs_of id (generate_keccak_input rng0 hash0 0).1).getD b []).getD
                 lane 0 / 2 ^ z % 2 = 1
            then 1 else 0))) :=
  ⟨rfl, out_bits_characterization (ZMod 3) rng0 hash0 id kcols0 5 0 tr0 limbs0 rfl⟩

/-- Witness for `sum_hash_end_eq_one`: a concrete 2-row flag assignment
satisfying every constraint, whose `hash_end` column sums to 1. -/
theorem sum_hash_end_eq_one_witness :
    2 ≤ 2 ∧
    flag_constraints (ZMod 3) 2 hashEnd0 seenEnd0 active0 finalStep0 ∧
    ∑ r ∈ Finset.range 2, hashEnd0 r = 1 := by
  have hcon : flag_constraints (ZMod 3) 2 hashEnd0 seenEnd0 active0 finalStep0 := by
    simp only [flag_constraints]
    decide
  exact ⟨by omega, hcon,
    sum_hash_end_eq_one (ZMod 3) 2 hashEnd0 seenEnd0 active0 finalStep0 (by omega) hcon⟩

/-- Witness for `xor2_xor3_boolean` in `ZMod 3` (characteristic 3 ≠ 2) at
`a = 1`, `b = 0`, `c = 1`. -/
theorem xor2_xor3_boolean_witness :
    ((2 : ZMod 3) ≠ 0) ∧
    ((1 : ZMod 3) = 0 ∨ (1 : ZMod 3) = 1) ∧
    ((0 : ZMod 3) = 0 ∨ (0 : ZMod 3) = 1) ∧
    ((xor2 (2 : ZMod 3) 1 0 = 0 ∨ xor2 (2 : ZMod 3) 1 0 = 1) ∧
     (xor2 (2 : ZMod 3) 1 0 = 1 ↔ Xor' ((1 : ZMod 3) = 1) ((0 : ZMod 3) = 1)) ∧
     (xor3 (2 : ZMod 3) 1 0 1 = 0 ∨ xor3 (2 : ZMod 3) 1 0 1 = 1) ∧
     (xor3 (2 : ZMod 3) 1 0 1 = 1 ↔
       Xor' (Xor' ((1 : ZMod 3) = 1) ((0 : ZMod 3) = 1)) ((1 : ZMod 3) = 1))) :=
  ⟨by decide, Or.inr rfl, Or.inl rfl,
    xor2_xor3_boolean (ZMod 3) (by decide) 1 0 1 (Or.inr rfl) (Or.inl rfl) (Or.inr rfl)⟩
